import Mathlib

/-!
# Verification of the docreview-pro annotation subsystem

Shallow embedding of the review client's core logic:

* the highlight renderer `renderHighlightedParagraph` (paragraph text plus
  possibly-overlapping spans rendered into plain/marked fragments),
* the in-memory annotation store (`createAnnotation`, `toggleResolved`,
  `changeAssignee`, `remapIssue`, `carryOverFromPrevious`) together with the
  activity log, and
* the JSON export/import pair (`exportJson`, `importJsonFile`).

Paragraph text is modelled as `List Char` (one entry per UTF-16 code unit of the
JS string); JS `number` offsets are modelled as `Int`; the random UUIDs of
`genId` and the ISO timestamps of `nowIso()` are threaded in as explicit
parameters, since the browser supplies them nondeterministically.  The
`Record<string, Annotation[]>` bucket map is modelled as an association list
with JS object-spread update semantics (`setB`), and lookups `prev[k] ?? []`
as `getB`.
-/

namespace DocReview

/-- `AnnotationStatus` from `types.ts`. -/
inductive AnnotationStatus where
  | Open
  | Resolved
  | NeedsRemap
deriving DecidableEq, Repr

/-- The `reason` field of an `Unanchored` anchor (`types.ts`). -/
inductive AnchorReason where
  | NotFoundInVersion
  | UserNeedsRemap
deriving DecidableEq, Repr

/-- `AnnotationAnchor` from `types.ts`: a tagged union of a half-open text
range and the unanchored marker. -/
inductive AnnotationAnchor where
  | TextRange (sectionId : String) (start stop : Int)
  | Unanchored (reason : AnchorReason)
deriving DecidableEq, Repr

/-- The `isUnanchoredAnchor` type guard of the review client. -/
def AnnotationAnchor.isUnanchored : AnnotationAnchor → Bool
  | .Unanchored _ => true
  | .TextRange _ _ _ => false

/-- `AnnotationCategory` from `types.ts`. -/
inductive AnnotationCategory where
  | MissingInfo
  | Formatting
  | Compliance
  | LegalRisk
  | Clarification
deriving DecidableEq, Repr

/-- `Severity` from `types.ts`. -/
inductive Severity where
  | Low
  | Medium
  | High
deriving DecidableEq, Repr

/-- `Annotation` from `types.ts`.  `assigneeId : string | null` becomes
`Option String`; ISO timestamp strings stay strings. -/
structure Annotation where
  id : String
  docId : String
  versionId : String
  quote : String
  category : AnnotationCategory
  severity : Severity
  status : AnnotationStatus
  assigneeId : Option String
  comment : String
  anchor : AnnotationAnchor
  createdAt : String
  updatedAt : String
deriving DecidableEq, Repr

/-! ## Highlight renderer (`renderHighlightedParagraph`) -/

/-- One element of the `highlights` array handed to the renderer:
`{ id, start, end, status }` (the `end` field is named `stop` because `end`
is a Lean keyword). -/
structure Highlight where
  id : String
  start : Int
  stop : Int
  status : AnnotationStatus
deriving DecidableEq, Repr

/-- `clamp(n, min, max) = Math.max(min, Math.min(max, n))` from the review
client. -/
def clamp (n lo hi : Int) : Int := max lo (min hi n)

/-- `text.slice(a, b)` of JavaScript for non-negative indices: characters from
position `a` (inclusive) to `b` (exclusive), empty when `a ≥ b`. -/
def jsSlice (text : List Char) (a b : Nat) : List Char := (text.take b).drop a

/-- One output fragment of the renderer: either a plain `<span>` (`text`) or a
clickable highlighted `<button>` (`mark`).  The `key` strings mirror the React
keys built in the source. -/
inductive Fragment where
  | text (value : List Char) (key : String)
  | mark (value : List Char) (key : String) (id : String) (status : AnnotationStatus)
deriving DecidableEq, Repr

/-- The characters a fragment displays. -/
def Fragment.value : Fragment → List Char
  | .text v _ => v
  | .mark v _ _ _ => v

/-- Whether a fragment is a highlighted (`mark`) fragment. -/
def Fragment.isMark : Fragment → Bool
  | .text _ _ => false
  | .mark _ _ _ _ => true

/-- Stable insertion of a span into a list already sorted by ascending
`start`; an incoming span goes after every span with a strictly smaller
`start` and before the first span whose `start` is not smaller. -/
def insertByStart (x : Highlight) : List Highlight → List Highlight
  | [] => [x]
  | y :: ys => if y.start < x.start then y :: insertByStart x ys else x :: y :: ys

/-- `[...highlights].sort((a, b) => a.start - b.start)`: a stable sort by
ascending `start`.  JavaScript's `Array.prototype.sort` is stable, and any two
stable sorts under the same comparator agree, so a stable insertion sort is an
exact model of it. -/
def sortByStart : List Highlight → List Highlight
  | [] => []
  | x :: xs => insertByStart x (sortByStart xs)

/-- The `for (const h of sorted)` sweep of `renderHighlightedParagraph`,
including the trailing plain fragment pushed after the loop.  Each span is
clamped to `[0, text.length]`, degenerate spans are skipped, a plain fragment
is emitted when the clamped start lies beyond the cursor, the mark fragment is
emitted for the clamped `[start, stop)` slice, and the cursor is set to the
clamped stop. -/
def renderLoop (text : List Char) : List Highlight → Nat → List Fragment
  | [], cursor =>
      if cursor < text.length then
        [Fragment.text (text.drop cursor) ("t-" ++ toString cursor ++ "-end")]
      else []
  | h :: rest, cursor =>
      let s := (clamp h.start 0 (text.length : Int)).toNat
      let e := (clamp h.stop 0 (text.length : Int)).toNat
      if e ≤ s then renderLoop text rest cursor
      else
        (if cursor < s then
          [Fragment.text (jsSlice text cursor s)
            ("t-" ++ toString cursor ++ "-" ++ toString s)]
         else [])
        ++ Fragment.mark (jsSlice text s e)
            ("m-" ++ toString s ++ "-" ++ toString e ++ "-" ++ h.id) h.id h.status
        :: renderLoop text rest e

/-- The renderer's return value: the raw paragraph string when there are no
highlights (`if (highlights.length === 0) return paragraphText`), otherwise the
fragment sequence (the JSX then maps each fragment to a span/button). -/
inductive RenderResult where
  | raw (text : List Char)
  | fragments (parts : List Fragment)
deriving DecidableEq, Repr

/-- `renderHighlightedParagraph(paragraphText, highlights, onClickHighlight)`.
The `onClickHighlight` callback only becomes each button's handler and does not
influence the produced fragments, so it is omitted. -/
def renderHighlightedParagraph (text : List Char) (highlights : List Highlight) :
    RenderResult :=
  if highlights.length = 0 then .raw text
  else .fragments (renderLoop text (sortByStart highlights) 0)

/-- Concatenation of the characters of a fragment list, in order. -/
def fragChars : List Fragment → List Char
  | [] => []
  | f :: rest => f.value ++ fragChars rest

/-- All characters a render result displays, in order. -/
def renderedChars : RenderResult → List Char
  | .raw t => t
  | .fragments ps => fragChars ps

/-- The (isMark, characters) view of a render result, forgetting keys, ids and
statuses. -/
def fragKinds : RenderResult → List (Bool × List Char)
  | .raw t => [(false, t)]
  | .fragments ps => ps.map (fun f => (f.isMark, f.value))

/-- The sweep-order compatibility check: starting from `cursor`, every
surviving clamped span begins at or after the cursor, and the cursor advances
to each span's clamped stop.  This holds exactly when the spans (after
clamping and dropping degenerate ones) are mutually non-overlapping in sweep
order. -/
def chainedFrom (len : Nat) : List Highlight → Nat → Bool
  | [], _ => true
  | h :: rest, cursor =>
      let s := (clamp h.start 0 (len : Int)).toNat
      let e := (clamp h.stop 0 (len : Int)).toNat
      if e ≤ s then chainedFrom len rest cursor
      else decide (cursor ≤ s) && chainedFrom len rest e

/-! ## Activity log and store state -/

/-- `ActivityItem` from the review client: one constructor per event type, with
that type's `meta` payload inlined.  The field after the event id is the `at`
timestamp (named `atIso` because `at` is a Lean keyword). -/
inductive ActivityItem where
  | created (id atIso annotationId quote : String)
      (category : AnnotationCategory) (severity : Severity)
  | resolved (id atIso annotationId quote : String)
  | reopened (id atIso annotationId quote : String)
  | assigneeChanged (id atIso annotationId quote : String) (toUserId : Option String)
  | versionSwitched (id atIso toVersionId : String)
  | carriedOver (id atIso fromVersionId toVersionId : String) (count : Nat)
  | remapped (id atIso annotationId quote : String)
deriving DecidableEq, Repr

/-- Bucket lookup `map[k] ?? []` on the `Record<string, Annotation[]>`,
modelled as an association list with unique keys. -/
def getB : List (String × List Annotation) → String → List Annotation
  | [], _ => []
  | p :: rest, k => if p.1 == k then p.2 else getB rest k

/-- The object-spread update `{ ...map, [k]: v }`: replaces the value of an
existing key in place, appends the key otherwise. -/
def setB : List (String × List Annotation) → String → List Annotation →
    List (String × List Annotation)
  | [], k, v => [(k, v)]
  | p :: rest, k, v => if p.1 == k then (k, v) :: rest else p :: setB rest k v

/-- The store portion of the `ReviewClient` component state: the current
version id, the per-version annotation buckets and the activity log.  (The
purely presentational state — tabs, filters, palette, selection UI — is not
part of the store the claims are about; the operations below model the
mutation handlers in editor mode, after their `isReadOnly` guard.) -/
structure ReviewState where
  versionId : String
  annotationsByVersion : List (String × List Annotation)
  activity : List ActivityItem
deriving DecidableEq, Repr

/-- The initial component state: empty buckets, and one `VERSION_SWITCHED`
activity entry for the initial version. -/
def initialState (initialVersionId nowT evId : String) : ReviewState :=
  { versionId := initialVersionId
    annotationsByVersion := []
    activity := [.versionSwitched evId nowT initialVersionId] }

/-- `SelectionDraft` (minus the purely geometric `rect` used to position the
floating toolbar): the section, paragraph index, normalized local offsets and
captured quote of the user's text selection. -/
structure SelectionDraft where
  sectionId : String
  paraIndex : Nat
  startLocal : Int
  endLocal : Int
  quote : String
deriving DecidableEq, Repr

/-! ## Store mutations -/

/-- `comment.trim()`: strips leading and trailing whitespace (written with
structural recursion over the character list). -/
def jsTrim (s : String) : String :=
  ⟨((s.data.dropWhile Char.isWhitespace).reverse.dropWhile Char.isWhitespace).reverse⟩

/-- `createAnnotation()`: builds a new `Open` annotation with a `TextRange`
anchor from the selection draft, prepends it to the current version's bucket
and logs an `ANNOTATION_CREATED` entry.  The fresh `genId("a")` value, the
`genId("ev")` value and `nowIso()` are the `newId`, `evId` and `nowT`
parameters; `assigneeId ? assigneeId : null` is the `Option` argument. -/
def createAnnotation (draft : SelectionDraft) (category : AnnotationCategory)
    (severity : Severity) (assigneeId : Option String) (comment : String)
    (docId : String) (newId nowT evId : String) (s : ReviewState) : ReviewState :=
  let newAnn : Annotation :=
    { id := newId
      docId := docId
      versionId := s.versionId
      quote := draft.quote
      category := category
      severity := severity
      status := .Open
      assigneeId := assigneeId
      comment := jsTrim comment
      anchor := .TextRange draft.sectionId draft.startLocal draft.endLocal
      createdAt := nowT
      updatedAt := nowT }
  { s with
    annotationsByVersion :=
      setB s.annotationsByVersion s.versionId
        (newAnn :: getB s.annotationsByVersion s.versionId)
    activity := .created evId nowT newId draft.quote category severity :: s.activity }

/-- `toggleResolved(id)`: finds the annotation in the current bucket; no-op if
absent or `NeedsRemap`; otherwise flips `Open ⇄ Resolved` on every annotation
with that id, stamps `updatedAt`, and logs `ANNOTATION_RESOLVED` or
`ANNOTATION_REOPENED` with the found annotation's quote. -/
def toggleResolved (id nowT evId : String) (s : ReviewState) : ReviewState :=
  let currentAnnotations := getB s.annotationsByVersion s.versionId
  match currentAnnotations.find? (fun a => a.id == id) with
  | none => s
  | some ann =>
    if ann.status = .NeedsRemap then s
    else
      let nextStatus : AnnotationStatus :=
        if ann.status = .Resolved then .Open else .Resolved
      let next := currentAnnotations.map (fun a =>
        if a.id == id then { a with status := nextStatus, updatedAt := nowT } else a)
      { s with
        annotationsByVersion := setB s.annotationsByVersion s.versionId next
        activity :=
          (if nextStatus = .Resolved then ActivityItem.resolved evId nowT id ann.quote
           else ActivityItem.reopened evId nowT id ann.quote) :: s.activity }

/-- `changeAssignee(id, toUserId)`: no-op if the id is absent; otherwise sets
the assignee, stamps `updatedAt` and logs `ASSIGNEE_CHANGED`. -/
def changeAssignee (id : String) (toUserId : Option String) (nowT evId : String)
    (s : ReviewState) : ReviewState :=
  match (getB s.annotationsByVersion s.versionId).find? (fun a => a.id == id) with
  | none => s
  | some ann =>
    let next := (getB s.annotationsByVersion s.versionId).map (fun a =>
      if a.id == id then { a with assigneeId := toUserId, updatedAt := nowT } else a)
    { s with
      annotationsByVersion := setB s.annotationsByVersion s.versionId next
      activity := .assigneeChanged evId nowT id ann.quote toUserId :: s.activity }

/-- `remapIssue()` for a given target id and selection draft (the component
guards that both exist before reaching this code): no-op if the id is absent
from the current bucket; otherwise forces `status = Open`, replaces the quote
and anchor with the draft's values, stamps `updatedAt` (leaving `createdAt`
alone) and logs `ANNOTATION_REMAPPED` with the pre-remap quote. -/
def remapIssue (remapTargetId : String) (draft : SelectionDraft) (nowT evId : String)
    (s : ReviewState) : ReviewState :=
  let currentAnnotations := getB s.annotationsByVersion s.versionId
  match currentAnnotations.find? (fun a => a.id == remapTargetId) with
  | none => s
  | some ann =>
    let next := currentAnnotations.map (fun a =>
      if a.id == remapTargetId then
        { a with
          status := .Open
          quote := draft.quote
          anchor := .TextRange draft.sectionId draft.startLocal draft.endLocal
          updatedAt := nowT }
      else a)
    { s with
      annotationsByVersion := setB s.annotationsByVersion s.versionId next
      activity := .remapped evId nowT remapTargetId ann.quote :: s.activity }

/-- The clone built for one carried annotation: new id, same
category/severity/quote/comment/assignee, attached to the target version with
`status = NeedsRemap`, `anchor = Unanchored{UserNeedsRemap}` and both
timestamps set to the carry-over time. -/
def carriedAnnotation (versionId nowT newId : String) (a : Annotation) : Annotation :=
  { a with
    id := newId
    versionId := versionId
    status := .NeedsRemap
    anchor := .Unanchored .UserNeedsRemap
    createdAt := nowT
    updatedAt := nowT }

/-- `toCarry.map((a) => { const id = genId("a"); ... })`: each element gets the
next fresh id, modelled by indexing the `fresh` id supply in order. -/
def carryList (versionId nowT : String) (fresh : Nat → String) :
    Nat → List Annotation → List Annotation
  | _, [] => []
  | i, a :: rest =>
      carriedAnnotation versionId nowT (fresh i) a ::
        carryList versionId nowT fresh (i + 1) rest

/-- `carryOverFromPrevious()`: no-op when there is no previous version or no
non-`Resolved` annotation in its bucket; otherwise prepends the carried clones
to the current version's bucket and logs one `ANNOTATIONS_CARRIED_OVER` entry
with the carried count. -/
def carryOverFromPrevious (previousVersionId : Option String) (nowT : String)
    (fresh : Nat → String) (evId : String) (s : ReviewState) : ReviewState :=
  match previousVersionId with
  | none => s
  | some fromId =>
    let prevAnns := getB s.annotationsByVersion fromId
    let toCarry := prevAnns.filter (fun a => !(a.status == .Resolved))
    if toCarry.length = 0 then s
    else
      let carried := carryList s.versionId nowT fresh 0 toCarry
      { s with
        annotationsByVersion :=
          setB s.annotationsByVersion s.versionId
            (carried ++ getB s.annotationsByVersion s.versionId)
        activity :=
          .carriedOver evId nowT fromId s.versionId carried.length :: s.activity }

/-- The version `<select>`'s `onChange` handler restricted to the store: set
the current version id and log `VERSION_SWITCHED`. -/
def switchVersion (next nowT evId : String) (s : ReviewState) : ReviewState :=
  { s with
    versionId := next
    activity := .versionSwitched evId nowT next :: s.activity }

/-! ## Export / import -/

/-- `ExportPayload` from the review client. -/
structure ExportPayload where
  schema : String
  exportedAt : String
  docId : String
  versionId : String
  annotationsByVersion : List (String × List Annotation)
  activity : List ActivityItem
deriving DecidableEq, Repr

/-- `exportJson()` restricted to building the payload (the blob/anchor-click
download machinery around it does not touch the store). -/
def exportJson (docId exportedAt : String) (s : ReviewState) : ExportPayload :=
  { schema := "review-mini-v1"
    exportedAt := exportedAt
    docId := docId
    versionId := s.versionId
    annotationsByVersion := s.annotationsByVersion
    activity := s.activity }

/-- The fields `importJsonFile` reads off `JSON.parse`'s result
(`Partial<ExportPayload>`): each is `Option`al, `none` meaning
absent/undefined. -/
structure ImportPayload where
  schema : Option String
  versionId : Option String
  annotationsByVersion : Option (List (String × List Annotation))
  activity : Option (List ActivityItem)
deriving DecidableEq, Repr

/-- `importJsonFile(file)`: the `Option ImportPayload` input is the outcome of
`JSON.parse` (`none` = malformed JSON, caught and ignored).  Wrong schema or a
missing `annotationsByVersion`/`activity` is a silent no-op; otherwise both are
replaced wholesale and, when `typeof parsed.versionId === "string"`, that
version id becomes current. -/
def importJsonFile (parsed : Option ImportPayload) (s : ReviewState) : ReviewState :=
  match parsed with
  | none => s
  | some p =>
    if p.schema = some "review-mini-v1" then
      match p.annotationsByVersion, p.activity with
      | some abv, some act =>
        { versionId :=
            match p.versionId with
            | some v => v
            | none => s.versionId
          annotationsByVersion := abv
          activity := act }
      | _, _ => s
    else s

/-- The parsed view of a payload exported by `exportJson` (JSON
stringify-then-parse is faithful on this data, so every field is present). -/
def parseOfExport (p : ExportPayload) : ImportPayload :=
  { schema := some p.schema
    versionId := some p.versionId
    annotationsByVersion := some p.annotationsByVersion
    activity := some p.activity }

/-! ## Renderer lemmas -/

theorem clamp_toNat_le (n : Int) (len : Nat) : (clamp n 0 (len : Int)).toNat ≤ len := by
  simp only [clamp]
  omega

theorem dropTake_append_drop {α : Type} (m : List α) :
    ∀ a b : Nat, a ≤ b → (m.take b).drop a ++ m.drop b = m.drop a := by
  induction m with
  | nil => intro a b _; simp
  | cons x xs ih =>
    intro a b hab
    cases b with
    | zero =>
      have ha : a = 0 := Nat.le_zero.mp hab
      simp [ha]
    | succ b' =>
      cases a with
      | zero => simp [List.take_append_drop]
      | succ a' =>
        simpa using ih a' b' (Nat.succ_le_succ_iff.mp hab)

theorem jsSlice_append (l : List Char) (a b c : Nat) (hab : a ≤ b) (hbc : b ≤ c) :
    jsSlice l a b ++ jsSlice l b c = jsSlice l a c := by
  have h1 : l.take b = (l.take c).take b := by
    rw [List.take_take, Nat.min_eq_left hbc]
  simp only [jsSlice, h1]
  exact dropTake_append_drop (l.take c) a b hab

theorem jsSlice_length (l : List Char) (a : Nat) : jsSlice l a l.length = l.drop a := by
  simp [jsSlice]

/-- Loop invariant for the sweep: if the surviving clamped spans chain from the
cursor onwards, the emitted fragments spell out exactly the text from the
cursor to the end. -/
theorem renderLoop_chars (text : List Char) (spans : List Highlight) :
    ∀ cursor : Nat, cursor ≤ text.length →
      chainedFrom text.length spans cursor = true →
      fragChars (renderLoop text spans cursor) = text.drop cursor := by
  induction spans with
  | nil =>
    intro cursor hc _
    by_cases hlt : cursor < text.length
    · simp [renderLoop, hlt, fragChars, Fragment.value]
    · have : text.length ≤ cursor := Nat.le_of_not_lt hlt
      simp [renderLoop, hlt, fragChars, List.drop_eq_nil_of_le this]
  | cons h rest ih =>
    intro cursor hc hch
    simp only [renderLoop, chainedFrom] at hch ⊢
    by_cases he : (clamp h.stop 0 (text.length : Int)).toNat ≤
        (clamp h.start 0 (text.length : Int)).toNat
    · simp only [he, if_true] at hch ⊢
      exact ih cursor hc hch
    · simp only [he, if_false, Bool.and_eq_true, decide_eq_true_eq] at hch ⊢
      obtain ⟨hcs, hch'⟩ := hch
      set s := (clamp h.start 0 (text.length : Int)).toNat with hs
      set e := (clamp h.stop 0 (text.length : Int)).toNat with he2
      have hel : e ≤ text.length := clamp_toNat_le _ _
      have hse : s ≤ e := Nat.le_of_lt (Nat.lt_of_not_le he)
      have hrec : fragChars (renderLoop text rest e) = text.drop e := ih e hel hch'
      by_cases hlt : cursor < s
      · simp only [hlt, if_true, fragChars, Fragment.value, List.singleton_append,
          List.cons_append, List.nil_append]
        rw [hrec, ← jsSlice_length text e, jsSlice_append text s e text.length hse hel,
          jsSlice_append text cursor s text.length (Nat.le_of_lt hlt)
            (le_trans hse hel), jsSlice_length]
      · have hcseq : cursor = s := Nat.le_antisymm hcs (Nat.le_of_not_lt hlt)
        simp only [hlt, if_false, List.nil_append, fragChars, Fragment.value]
        rw [hrec, ← jsSlice_length text e, jsSlice_append text s e text.length hse hel,
          jsSlice_length, hcseq]

/-! ## C1: anchor clamp safety of the renderer -/

/-- C1 fails on the code as stated: for the overlapping spans `[0,5)` and
`[3,8)` over `"abcdefghij"`, concatenating the renderer's fragment values
gives `"abcdedefghij"` — characters 3 and 4 are emitted twice — which is not
the original text. -/
theorem C1_counterexample :
    renderedChars (renderHighlightedParagraph "abcdefghij".toList
      [⟨"A", 0, 5, .Open⟩, ⟨"B", 3, 8, .Open⟩]) ≠ "abcdefghij".toList := by
  decide

/-- C1 (amended): for every paragraph text and every list of highlight spans
whose clamped, non-degenerate spans do not overlap one another in sweep order
(each begins at or after the point where the previous one ended, as checked by
`chainedFrom` — out-of-range `start < 0` / `end > L` inputs are still
allowed), concatenating the produced fragment values in order yields exactly
the original paragraph text.  Overlapping or nested spans are excluded: the
code re-emits the overlap instead of clamping it. -/
theorem C1_clamp_safety (text : List Char) (highlights : List Highlight)
    (h : chainedFrom text.length (sortByStart highlights) 0 = true) :
    renderedChars (renderHighlightedParagraph text highlights) = text := by
  by_cases hemp : highlights.length = 0
  · simp [renderHighlightedParagraph, hemp, renderedChars]
  · simp only [renderHighlightedParagraph, hemp, if_false, renderedChars]
    simpa using renderLoop_chars text (sortByStart highlights) 0 (Nat.zero_le _) h

/-- C1 witness: out-of-range spans `[-2,3)` and `[5,99)` over `"hello world"`
(given out of order) satisfy the non-overlap condition after clamping, and the
rendered fragments reconstruct the text. -/
theorem C1_witness :
    chainedFrom ("hello world".toList.length)
        (sortByStart [⟨"B", 5, 99, .Open⟩, ⟨"A", -2, 3, .Open⟩]) 0 = true ∧
    renderedChars (renderHighlightedParagraph "hello world".toList
        [⟨"B", 5, 99, .Open⟩, ⟨"A", -2, 3, .Open⟩]) = "hello world".toList :=
  ⟨by decide, C1_clamp_safety _ _ (by decide)⟩

/-! ## C2: coverage of overlapping spans -/

/-- C2 fails on the code as stated: for spans `[0,5)` and `[3,8)` over
`"abcdefghij"`, the renderer emits highlighted `"abcde"` and highlighted
`"defgh"` — the second highlighted fragment restarts at index 3, before the
previous fragment's end 5, so characters 3 and 4 are covered by two
highlighted fragments; the output is not the claimed `[0,5)`, `[5,8)`,
`[8,len)` split. -/
theorem C2_counterexample :
    fragKinds (renderHighlightedParagraph "abcdefghij".toList
        [⟨"A", 0, 5, .Open⟩, ⟨"B", 3, 8, .Open⟩]) =
      [(true, "abcde".toList), (true, "defgh".toList), (false, "ij".toList)] ∧
    fragKinds (renderHighlightedParagraph "abcdefghij".toList
        [⟨"A", 0, 5, .Open⟩, ⟨"B", 3, 8, .Open⟩]) ≠
      [(true, "abcde".toList), (true, "fgh".toList), (false, "ij".toList)] := by
  decide

/-- C2 (amended): when spans overlap, the later span's highlighted fragment
begins at its own clamped start — not at the previous fragment's end — so the
characters of the overlap appear in two highlighted fragments.  For spans
`[0,5)` and `[3,8)` over any text longer than 8 characters the output is
highlighted `[0,5)`, highlighted `[3,8)` (both containing the slice `[3,5)`),
and a plain fragment for `[8,len)`. -/
theorem C2_overlap_duplicates (text : List Char) (h : 8 < text.length) :
    fragKinds (renderHighlightedParagraph text
        [⟨"A", 0, 5, .Open⟩, ⟨"B", 3, 8, .Open⟩]) =
      [(true, jsSlice text 0 5), (true, jsSlice text 3 8), (false, text.drop 8)] ∧
    jsSlice text 0 5 = jsSlice text 0 3 ++ jsSlice text 3 5 ∧
    jsSlice text 3 8 = jsSlice text 3 5 ++ jsSlice text 5 8 := by
  have h8 : 8 ≤ text.length := Nat.le_of_lt h
  have c0 : (clamp 0 0 (text.length : Int)).toNat = 0 := by simp only [clamp]; omega
  have c5 : (clamp 5 0 (text.length : Int)).toNat = 5 := by simp only [clamp]; omega
  have c3 : (clamp 3 0 (text.length : Int)).toNat = 3 := by simp only [clamp]; omega
  have c8 : (clamp 8 0 (text.length : Int)).toNat = 8 := by simp only [clamp]; omega
  have hsort : sortByStart [⟨"A", 0, 5, .Open⟩, ⟨"B", 3, 8, .Open⟩] =
      [⟨"A", 0, 5, .Open⟩, ⟨"B", 3, 8, .Open⟩] := by decide
  refine ⟨?_, (jsSlice_append text 0 3 5 (by omega) (by omega)).symm,
    (jsSlice_append text 3 5 8 (by omega) (by omega)).symm⟩
  simp only [renderHighlightedParagraph, hsort, List.length_cons, List.length_nil]
  rw [if_neg (by omega)]
  simp only [renderLoop, c0, c5, c3, c8]
  rw [if_pos h]
  simp [fragKinds, Fragment.isMark, Fragment.value]

/-- C2 witness: the amended statement at the ten-character text
`"abcdefghij"`. -/
theorem C2_witness :
    (8 : Nat) < "abcdefghij".toList.length ∧
    fragKinds (renderHighlightedParagraph "abcdefghij".toList
        [⟨"A", 0, 5, .Open⟩, ⟨"B", 3, 8, .Open⟩]) =
      [(true, jsSlice "abcdefghij".toList 0 5), (true, jsSlice "abcdefghij".toList 3 8),
        (false, "abcdefghij".toList.drop 8)] :=
  ⟨by decide, (C2_overlap_duplicates "abcdefghij".toList (by decide)).1⟩

/-! ## Store lemmas -/

theorem getB_setB_same (m : List (String × List Annotation)) (k : String)
    (v : List Annotation) : getB (setB m k v) k = v := by
  induction m with
  | nil => simp [getB, setB]
  | cons p rest ih =>
    by_cases hp : p.1 == k
    · simp [getB, setB, hp]
    · simp [getB, setB, hp, ih]

theorem getB_setB_other (m : List (String × List Annotation)) (k k' : String)
    (v : List Annotation) (hne : k' ≠ k) : getB (setB m k v) k' = getB m k' := by
  induction m with
  | nil =>
    have : (k == k') = false := by simpa using fun h => hne h.symm
    simp [getB, setB, this]
  | cons p rest ih =>
    by_cases hp : p.1 == k
    · have hp' : p.1 = k := by simpa using hp
      have : (k == k') = false := by simpa using fun h => hne h.symm
      simp [getB, setB, hp, this, hp' ▸ (by simpa using fun h => hne h.symm : (k == k') = false)]
    · simp only [setB, hp, Bool.false_eq_true, if_false, getB]
      by_cases hpk : p.1 == k'
      · simp [hpk]
      · simp [hpk, ih]

/-- The first annotation matching an id, after an id-preserving conditional
update of the bucket, is the updated version of the annotation found before
the update. -/
theorem find?_update (l : List Annotation) (id : String) (f : Annotation → Annotation)
    (hf : ∀ a, (f a).id = a.id) :
    ∀ ann, l.find? (fun a => a.id == id) = some ann →
      (l.map (fun a => if a.id == id then f a else a)).find? (fun a => a.id == id) =
        some (f ann) := by
  induction l with
  | nil => intro ann h; simp [List.find?] at h
  | cons x xs ih =>
    intro ann h
    by_cases hx : (x.id == id) = true
    · rw [@List.find?_cons_of_pos _ (fun a => a.id == id) x xs hx] at h
      injection h with h
      subst h
      simp only [List.map_cons, hx, if_true]
      exact @List.find?_cons_of_pos _ (fun a => a.id == id) (f x) _ (by simpa [hf] using hx)
    · rw [@List.find?_cons_of_neg _ (fun a => a.id == id) x xs hx] at h
      simp only [List.map_cons, hx, Bool.false_eq_true, if_false]
      rw [@List.find?_cons_of_neg _ (fun a => a.id == id) x _ hx]
      exact ih ann h

/-- An id-preserving map leaves the list of ids unchanged. -/
theorem map_ids_of_preserving (l : List Annotation) (f : Annotation → Annotation)
    (hf : ∀ a, (f a).id = a.id) :
    (l.map f).map Annotation.id = l.map Annotation.id := by
  induction l with
  | nil => rfl
  | cons x xs ih => simp [ih, hf]

/-- In a bucket with no duplicate ids, any member carrying the id found by
`find?` is the found annotation itself. -/
theorem eq_of_mem_of_find?_of_nodup (l : List Annotation) (id : String)
    (hnd : (l.map Annotation.id).Nodup) (ann : Annotation)
    (hf : l.find? (fun a => a.id == id) = some ann) :
    ∀ a ∈ l, a.id = id → a = ann := by
  induction l with
  | nil => intro a ha; simp at ha
  | cons x xs ih =>
    simp only [List.map_cons, List.nodup_cons] at hnd
    intro a ha hid
    by_cases hx : (x.id == id) = true
    · rw [@List.find?_cons_of_pos _ (fun a => a.id == id) x xs hx] at hf
      injection hf with hf
      subst hf
      rcases List.mem_cons.mp ha with rfl | hmem
      · rfl
      · exfalso
        apply hnd.1
        have hxid : x.id = id := by simpa using hx
        rw [hxid, ← hid]
        exact List.mem_map_of_mem Annotation.id hmem
    · rw [@List.find?_cons_of_neg _ (fun a => a.id == id) x xs hx] at hf
      rcases List.mem_cons.mp ha with rfl | hmem
      · exact absurd (by simpa using hid) (by simpa using hx)
      · exact ih hnd.2 hf a hmem hid

/-! ## Concrete fixtures used by the witnesses -/

/-- An `Open`, text-anchored annotation. -/
def annOpen : Annotation :=
  { id := "o1", docId := "d1", versionId := "v1", quote := "q2", category := .LegalRisk,
    severity := .High, status := .Open, assigneeId := some "u1", comment := "c",
    anchor := .TextRange "s1" 0 4, createdAt := "t0", updatedAt := "t0" }

/-- A `NeedsRemap`, unanchored annotation. -/
def annNeedsRemap : Annotation :=
  { id := "n1", docId := "d1", versionId := "v1", quote := "q", category := .Formatting,
    severity := .Low, status := .NeedsRemap, assigneeId := none, comment := "",
    anchor := .Unanchored .UserNeedsRemap, createdAt := "t0", updatedAt := "t0" }

/-- A `Resolved`, text-anchored annotation. -/
def annResolved : Annotation :=
  { id := "r1", docId := "d1", versionId := "v1", quote := "q3", category := .MissingInfo,
    severity := .Medium, status := .Resolved, assigneeId := none, comment := "done",
    anchor := .TextRange "s2" 2 7, createdAt := "t0", updatedAt := "t0" }

/-- A two-version store: the current version `v2` is empty, the previous
version `v1` holds an open, a resolved and a needs-remap annotation. -/
def twoVersionState : ReviewState :=
  { versionId := "v2"
    annotationsByVersion := [("v1", [annOpen, annResolved, annNeedsRemap])]
    activity := [] }

/-- A one-version store holding a needs-remap and an open annotation. -/
def oneVersionState : ReviewState :=
  { versionId := "v1"
    annotationsByVersion := [("v1", [annNeedsRemap, annOpen])]
    activity := [] }

/-! ## C3: toggleResolved -/

/-- C3: for an annotation id found in the current version's bucket, if its
status is `NeedsRemap` then `toggleResolved` returns the state unchanged (no
status change, no activity entry); otherwise it flips the status
`Open ⇄ Resolved` on that id, stamps `updatedAt` with the current time, keeps
the version id, and prepends an `ANNOTATION_RESOLVED` entry when the new
status is `Resolved` and an `ANNOTATION_REOPENED` entry when it is `Open`. -/
theorem C3_toggleResolved (s : ReviewState) (id nowT evId : String) (ann : Annotation)
    (hfind : (getB s.annotationsByVersion s.versionId).find? (fun a => a.id == id) =
      some ann) :
    (ann.status = .NeedsRemap → toggleResolved id nowT evId s = s) ∧
    (ann.status ≠ .NeedsRemap →
      (toggleResolved id nowT evId s).versionId = s.versionId ∧
      getB (toggleResolved id nowT evId s).annotationsByVersion s.versionId =
        (getB s.annotationsByVersion s.versionId).map (fun a =>
          if a.id == id then
            { a with
              status := if ann.status = .Resolved then .Open else .Resolved
              updatedAt := nowT }
          else a) ∧
      (toggleResolved id nowT evId s).activity =
        (if (if ann.status = .Resolved then AnnotationStatus.Open else .Resolved) =
            .Resolved then
          ActivityItem.resolved evId nowT id ann.quote
        else ActivityItem.reopened evId nowT id ann.quote) :: s.activity) := by
  constructor
  · intro hnr
    simp [toggleResolved, hfind, hnr]
  · intro hnr
    refine ⟨?_, ?_, ?_⟩ <;> simp [toggleResolved, hfind, hnr, getB_setB_same]

/-- C3 witness: in a one-version store holding a `NeedsRemap` annotation
`"n1"` and an `Open` annotation `"o1"`, toggling `"n1"` is a no-op. -/
theorem C3_witness :
    toggleResolved "n1" "t1" "ev9" oneVersionState = oneVersionState :=
  (C3_toggleResolved oneVersionState "n1" "t1" "ev9" annNeedsRemap (by decide)).1
    (by decide)

/-! ## C7: remap always reopens -/

/-- C7: remapping an annotation found in the current bucket — whatever its
prior status — produces a bucket in which that id now carries `status = Open`,
the draft's quote, a `TextRange` anchor built from the draft's section id and
local offsets, and `updatedAt = now`, while `createdAt` is untouched; an
`ANNOTATION_REMAPPED` entry is logged. -/
theorem C7_remapIssue (s : ReviewState) (id : String) (draft : SelectionDraft)
    (nowT evId : String) (ann : Annotation)
    (hfind : (getB s.annotationsByVersion s.versionId).find? (fun a => a.id == id) =
      some ann) :
    (remapIssue id draft nowT evId s).versionId = s.versionId ∧
    (getB (remapIssue id draft nowT evId s).annotationsByVersion s.versionId).find?
        (fun a => a.id == id) =
      some { ann with
        status := .Open
        quote := draft.quote
        anchor := .TextRange draft.sectionId draft.startLocal draft.endLocal
        updatedAt := nowT } ∧
    ({ ann with
        status := AnnotationStatus.Open
        quote := draft.quote
        anchor := .TextRange draft.sectionId draft.startLocal draft.endLocal
        updatedAt := nowT } : Annotation).createdAt = ann.createdAt ∧
    (remapIssue id draft nowT evId s).activity =
      .remapped evId nowT id ann.quote :: s.activity := by
  refine ⟨?_, ?_, rfl, ?_⟩
  · simp [remapIssue, hfind]
  · simp only [remapIssue, hfind, getB_setB_same]
    exact find?_update _ id
      (fun a =>
        { a with
          status := .Open
          quote := draft.quote
          anchor := .TextRange draft.sectionId draft.startLocal draft.endLocal
          updatedAt := nowT })
      (fun a => rfl) ann hfind
  · simp [remapIssue, hfind]

/-- C7 witness: remapping the `NeedsRemap` annotation `"n1"` with a fresh
draft reopens it with the draft's `TextRange` anchor. -/
theorem C7_witness :
    (getB (remapIssue "n1" ⟨"s2", 0, 3, 9, "new quote"⟩ "t1" "ev2"
        oneVersionState).annotationsByVersion
      oneVersionState.versionId).find? (fun a => a.id == "n1") =
      some { annNeedsRemap with
        status := .Open
        quote := "new quote"
        anchor := .TextRange "s2" 3 9
        updatedAt := "t1" } :=
  (C7_remapIssue oneVersionState "n1" ⟨"s2", 0, 3, 9, "new quote"⟩ "t1" "ev2"
    annNeedsRemap (by decide)).2.1

/-! ## C8: import validation -/

/-- C8: importing malformed JSON (a failed parse), a payload whose `schema` is
not exactly `"review-mini-v1"`, or a payload missing `annotationsByVersion` or
`activity` leaves the whole prior state unchanged; a valid payload fully
replaces `annotationsByVersion` and `activity` (no partial merge) and adopts
the payload's `versionId` as current exactly when it is a string. -/
theorem C8_importJsonFile (s : ReviewState) (p : ImportPayload) :
    (importJsonFile none s = s) ∧
    (p.schema ≠ some "review-mini-v1" → importJsonFile (some p) s = s) ∧
    (p.annotationsByVersion = none → importJsonFile (some p) s = s) ∧
    (p.activity = none → importJsonFile (some p) s = s) ∧
    (∀ abv act, p.annotationsByVersion = some abv → p.activity = some act →
      p.schema = some "review-mini-v1" →
      (importJsonFile (some p) s).annotationsByVersion = abv ∧
      (importJsonFile (some p) s).activity = act ∧
      (∀ v, p.versionId = some v → (importJsonFile (some p) s).versionId = v) ∧
      (p.versionId = none → (importJsonFile (some p) s).versionId = s.versionId)) := by
  refine ⟨rfl, ?_, ?_, ?_, ?_⟩
  · intro hs
    simp [importJsonFile, hs]
  · intro habv
    by_cases hs : p.schema = some "review-mini-v1"
    · simp [importJsonFile, hs, habv]
    · simp [importJsonFile, hs]
  · intro hact
    by_cases hs : p.schema = some "review-mini-v1"
    · rcases h2 : p.annotationsByVersion with _ | abv <;>
        simp [importJsonFile, hs, hact, h2]
    · simp [importJsonFile, hs]
  · intro abv act habv hact hs
    refine ⟨?_, ?_, ?_, ?_⟩
    · simp [importJsonFile, hs, habv, hact]
    · simp [importJsonFile, hs, habv, hact]
    · intro v hv
      simp [importJsonFile, hs, habv, hact, hv]
    · intro hv
      simp [importJsonFile, hs, habv, hact, hv]

/-- C8 witness: a wrong-schema payload is rejected and the prior state kept;
a valid payload replaces the buckets and activity and adopts its version id. -/
theorem C8_witness :
    importJsonFile
        (some { schema := some "review-mini-v2", versionId := some "vX"
                annotationsByVersion := some [], activity := some [] })
        oneVersionState = oneVersionState ∧
    (importJsonFile
        (some { schema := some "review-mini-v1", versionId := some "v2"
                annotationsByVersion := some [("v2", [annOpen])]
                activity := some [] })
        oneVersionState).annotationsByVersion = [("v2", [annOpen])] ∧
    (importJsonFile
        (some { schema := some "review-mini-v1", versionId := some "v2"
                annotationsByVersion := some [("v2", [annOpen])]
                activity := some [] })
        oneVersionState).versionId = "v2" := by
  refine ⟨?_, ?_, ?_⟩
  · exact (C8_importJsonFile oneVersionState _).2.1 (by decide)
  · exact ((C8_importJsonFile oneVersionState _).2.2.2.2 [("v2", [annOpen])] [] rfl rfl
      rfl).1
  · exact ((C8_importJsonFile oneVersionState _).2.2.2.2 [("v2", [annOpen])] [] rfl rfl
      rfl).2.2.1 "v2" rfl

/-! ## C9: export/import round trip -/

/-- C9: importing the payload produced by `exportJson` — with schema
`"review-mini-v1"`, the current doc and version ids, and the full buckets and
activity log — into any state restores exactly the `annotationsByVersion`,
`activity` and `versionId` that were current at export time. -/
theorem C9_export_import_roundtrip (s other : ReviewState) (docId exportedAt : String) :
    importJsonFile (some (parseOfExport (exportJson docId exportedAt s))) other = s := by
  rfl

/-! ## Carry-over lemmas -/

theorem carryList_length (versionId nowT : String) (fresh : Nat → String) :
    ∀ (i : Nat) (l : List Annotation),
      (carryList versionId nowT fresh i l).length = l.length := by
  intro i l
  induction l generalizing i with
  | nil => rfl
  | cons a rest ih => simp [carryList, ih]

theorem carryList_getElem? (versionId nowT : String) (fresh : Nat → String) :
    ∀ (l : List Annotation) (i k : Nat),
      (carryList versionId nowT fresh i l)[k]? =
        (l[k]?).map ( carriedAnnotation versionId nowT (fresh (i + k))) := by
  intro l
  induction l with
  | nil => intro i k; simp [carryList]
  | cons a rest ih =>
    intro i k
    cases k with
    | zero => simp [carryList]
    | succ k' =>
      simp only [carryList, List.getElem?_cons_succ]
      have heq : i + 1 + k' = i + (k' + 1) := by omega
      rw [ih (i + 1) k', heq]

theorem carryList_mem (versionId nowT : String) (fresh : Nat → String) :
    ∀ (i : Nat) (l : List Annotation) (x : Annotation),
      x ∈ carryList versionId nowT fresh i l →
      x.status = .NeedsRemap ∧ x.anchor = .Unanchored .UserNeedsRemap ∧
        x.versionId = versionId ∧ x.createdAt = nowT ∧ x.updatedAt = nowT := by
  intro i l
  induction l generalizing i with
  | nil => intro x hx; simp [carryList] at hx
  | cons a rest ih =>
    intro x hx
    rcases List.mem_cons.mp hx with rfl | hmem
    · exact ⟨rfl, rfl, rfl, rfl, rfl⟩
    · exact ih (i + 1) x hmem

/-! ## C5: carry-over excludes resolved -/

/-- C5: with no previous version, or with no non-`Resolved` annotation in the
source bucket, carry-over is a no-op.  Otherwise it prepends, to the current
version's bucket, exactly one clone per non-`Resolved` source annotation — in
source order, the k-th clone being the k-th eligible source annotation with
the k-th fresh id, the same category/severity/quote/comment/assignee, status
`NeedsRemap` and anchor `Unanchored{UserNeedsRemap}` — and prepends a single
`ANNOTATIONS_CARRIED_OVER` activity record whose count is the number of
annotations carried. -/
theorem C5_carryOverFromPrevious (s : ReviewState) (nowT : String)
    (fresh : Nat → String) (evId fromId : String) :
    (carryOverFromPrevious none nowT fresh evId s = s) ∧
    (((getB s.annotationsByVersion fromId).filter
        (fun a => !(a.status == .Resolved))).length = 0 →
      carryOverFromPrevious (some fromId) nowT fresh evId s = s) ∧
    (((getB s.annotationsByVersion fromId).filter
        (fun a => !(a.status == .Resolved))).length ≠ 0 →
      (carryOverFromPrevious (some fromId) nowT fresh evId s).versionId = s.versionId ∧
      getB (carryOverFromPrevious (some fromId) nowT fresh evId s).annotationsByVersion
          s.versionId =
        carryList s.versionId nowT fresh 0
            ((getB s.annotationsByVersion fromId).filter
              (fun a => !(a.status == .Resolved))) ++
          getB s.annotationsByVersion s.versionId ∧
      (carryOverFromPrevious (some fromId) nowT fresh evId s).activity =
        .carriedOver evId nowT fromId s.versionId
            ((getB s.annotationsByVersion fromId).filter
              (fun a => !(a.status == .Resolved))).length :: s.activity ∧
      (∀ k : Nat,
        (carryList s.versionId nowT fresh 0
            ((getB s.annotationsByVersion fromId).filter
              (fun a => !(a.status == .Resolved))))[k]? =
          (((getB s.annotationsByVersion fromId).filter
              (fun a => !(a.status == .Resolved)))[k]?).map
            ( carriedAnnotation s.versionId nowT (fresh k))) ∧
      (∀ x ∈ carryList s.versionId nowT fresh 0
          ((getB s.annotationsByVersion fromId).filter
            (fun a => !(a.status == .Resolved))),
        x.status = .NeedsRemap ∧ x.anchor = .Unanchored .UserNeedsRemap) ∧
      (∀ (nid : String) (a : Annotation),
        ( carriedAnnotation s.versionId nowT nid a).id = nid ∧
        ( carriedAnnotation s.versionId nowT nid a).category = a.category ∧
        ( carriedAnnotation s.versionId nowT nid a).severity = a.severity ∧
        ( carriedAnnotation s.versionId nowT nid a).quote = a.quote ∧
        ( carriedAnnotation s.versionId nowT nid a).comment = a.comment ∧
        ( carriedAnnotation s.versionId nowT nid a).assigneeId = a.assigneeId)) := by
  refine ⟨rfl, ?_, ?_⟩
  · intro h0
    simp [carryOverFromPrevious, h0]
  · intro h0
    refine ⟨?_, ?_, ?_, ?_, ?_, ?_⟩
    · simp [carryOverFromPrevious, h0]
    · simp only [carryOverFromPrevious, h0, if_false, getB_setB_same]
    · simp only [carryOverFromPrevious, h0, if_false, carryList_length]
    · intro k
      simpa using carryList_getElem? s.versionId nowT fresh _ 0 k
    · intro x hx
      exact ⟨(carryList_mem _ _ _ 0 _ x hx).1, (carryList_mem _ _ _ 0 _ x hx).2.1⟩
    · intro nid a
      exact ⟨rfl, rfl, rfl, rfl, rfl, rfl⟩

/-- C5 witness: carrying over from `v1` (one `Open`, one `Resolved`, one
`NeedsRemap` annotation) into the empty current version `v2` prepends exactly
the clones of the two non-resolved annotations and logs a count of 2. -/
theorem C5_witness :
    getB (carryOverFromPrevious (some "v1") "t9" (fun i => "c" ++ toString i) "ev5"
        twoVersionState).annotationsByVersion "v2" =
      [ carriedAnnotation "v2" "t9" "c0" annOpen,
        carriedAnnotation "v2" "t9" "c1" annNeedsRemap] ∧
    (carryOverFromPrevious (some "v1") "t9" (fun i => "c" ++ toString i) "ev5"
        twoVersionState).activity =
      [.carriedOver "ev5" "t9" "v1" "v2" 2] := by
  have h := (C5_carryOverFromPrevious twoVersionState "t9"
    (fun i => "c" ++ toString i) "ev5" "v1").2.2 (by decide)
  refine ⟨?_, ?_⟩
  · rw [show twoVersionState.versionId = "v2" from rfl] at h
    rw [h.2.1]
    decide
  · rw [h.2.2.1]
    decide

/-! ## C6: carry-over is a copy, not a move -/

/-- C6: carry-over leaves the source version's bucket exactly unchanged (same
annotations, same fields, same order), while the target version's bucket
grows by exactly the number of non-`Resolved` source annotations. -/
theorem C6_carryOver_frame (s : ReviewState) (nowT : String) (fresh : Nat → String)
    (evId fromId : String) (hne : fromId ≠ s.versionId) :
    getB (carryOverFromPrevious (some fromId) nowT fresh evId s).annotationsByVersion
        fromId =
      getB s.annotationsByVersion fromId ∧
    (getB (carryOverFromPrevious (some fromId) nowT fresh evId s).annotationsByVersion
        s.versionId).length =
      ((getB s.annotationsByVersion fromId).filter
          (fun a => !(a.status == .Resolved))).length +
        (getB s.annotationsByVersion s.versionId).length := by
  by_cases h0 : ((getB s.annotationsByVersion fromId).filter
      (fun a => !(a.status == .Resolved))).length = 0
  · constructor
    · simp [carryOverFromPrevious, h0]
    · simp [carryOverFromPrevious, h0]
  · constructor
    · simp only [carryOverFromPrevious, h0, if_false]
      exact getB_setB_other _ _ _ _ hne
    · simp only [carryOverFromPrevious, h0, if_false, getB_setB_same,
        List.length_append, carryList_length]

/-- C6 witness: the scenario of the spec — source version `v1` holds three
annotations (`Open`, `Resolved`, `NeedsRemap`); after carry-over the source
bucket is unchanged and the target bucket gained exactly the two non-resolved
ones. -/
theorem C6_witness :
    getB (carryOverFromPrevious (some "v1") "t9" (fun i => "c" ++ toString i) "ev5"
        twoVersionState).annotationsByVersion "v1" =
      [annOpen, annResolved, annNeedsRemap] ∧
    (getB (carryOverFromPrevious (some "v1") "t9" (fun i => "c" ++ toString i) "ev5"
        twoVersionState).annotationsByVersion "v2").length = 2 := by
  have h := C6_carryOver_frame twoVersionState "t9" (fun i => "c" ++ toString i)
    "ev5" "v1" (by decide)
  exact ⟨h.1, by rw [show twoVersionState.versionId = "v2" from rfl] at h; rw [h.2]; decide⟩

/-! ## C10: carried annotations are new entities -/

/-- C10: every annotation prepended by a (non-trivial) carry-over has both
`createdAt` and `updatedAt` equal to the time of the carry-over operation
itself — they are not copied from the source annotation. -/
theorem C10_carried_timestamps (s : ReviewState) (nowT : String)
    (fresh : Nat → String) (evId fromId : String)
    (h0 : ((getB s.annotationsByVersion fromId).filter
        (fun a => !(a.status == .Resolved))).length ≠ 0) :
    ∀ a ∈ (getB (carryOverFromPrevious (some fromId) nowT fresh evId
          s).annotationsByVersion s.versionId).take
        ((getB s.annotationsByVersion fromId).filter
          (fun a => !(a.status == .Resolved))).length,
      a.createdAt = nowT ∧ a.updatedAt = nowT := by
  intro a ha
  simp only [carryOverFromPrevious, h0, if_false, getB_setB_same] at ha
  rw [show ((getB s.annotationsByVersion fromId).filter
        (fun a => !(a.status == .Resolved))).length =
      (carryList s.versionId nowT fresh 0
        ((getB s.annotationsByVersion fromId).filter
          (fun a => !(a.status == .Resolved)))).length
    from (carryList_length _ _ _ _ _).symm, List.take_left] at ha
  exact ⟨(carryList_mem _ _ _ 0 _ a ha).2.2.2.1, (carryList_mem _ _ _ 0 _ a ha).2.2.2.2⟩

/-! ## C4: the status/anchor invariant -/

/-- One annotation satisfies the invariant: `status = NeedsRemap` exactly when
its anchor is `Unanchored`. -/
def annOk (a : Annotation) : Bool :=
  (a.status == .NeedsRemap) == a.anchor.isUnanchored

/-- Every annotation of every version bucket satisfies `annOk`. -/
def BucketsOk (s : ReviewState) : Prop :=
  ∀ k : String, ∀ a ∈ getB s.annotationsByVersion k, annOk a = true

/-- No version bucket contains two annotations with the same id (the code
relies on `crypto.randomUUID()` for this). -/
def IdsNodup (s : ReviewState) : Prop :=
  ∀ k : String, ((getB s.annotationsByVersion k).map Annotation.id).Nodup

/-- The store invariant carried through the induction. -/
def StoreInv (s : ReviewState) : Prop := BucketsOk s ∧ IdsNodup s

/-- States reachable from the initial (empty) store by the store mutations.
The id arguments of `createAnnotation` / `carryOverFromPrevious` carry the
freshness assumptions that model `crypto.randomUUID()`: a created id is not
already in the target bucket, and the carry-over id supply is injective and
disjoint from the target bucket.  `switchVersion` (the version `<select>`)
is included so that every bucket can become current. -/
inductive Reachable : ReviewState → Prop where
  | init (initialVersionId nowT evId : String) :
      Reachable (initialState initialVersionId nowT evId)
  | create {s : ReviewState} (draft : SelectionDraft) (category : AnnotationCategory)
      (severity : Severity) (assigneeId : Option String) (comment : String)
      (docId newId nowT evId : String) :
      Reachable s →
      newId ∉ (getB s.annotationsByVersion s.versionId).map Annotation.id →
      Reachable ( createAnnotation draft category severity assigneeId comment docId
        newId nowT evId s)
  | toggle {s : ReviewState} (id nowT evId : String) :
      Reachable s → Reachable (toggleResolved id nowT evId s)
  | assign {s : ReviewState} (id : String) (toUserId : Option String)
      (nowT evId : String) :
      Reachable s → Reachable (changeAssignee id toUserId nowT evId s)
  | remap {s : ReviewState} (id : String) (draft : SelectionDraft) (nowT evId : String) :
      Reachable s → Reachable (remapIssue id draft nowT evId s)
  | carry {s : ReviewState} (previousVersionId : Option String) (nowT : String)
      (fresh : Nat → String) (evId : String) :
      Reachable s →
      (∀ i j, fresh i = fresh j → i = j) →
      (∀ i, fresh i ∉ (getB s.annotationsByVersion s.versionId).map Annotation.id) →
      Reachable (carryOverFromPrevious previousVersionId nowT fresh evId s)
  | switch {s : ReviewState} (next nowT evId : String) :
      Reachable s → Reachable (switchVersion next nowT evId s)

/-- Updating the current bucket by an id-preserving, `annOk`-preserving map
keeps both halves of the invariant, bucket by bucket. -/
theorem storeInv_setB_map (s : ReviewState) (f : Annotation → Annotation)
    (hid : ∀ a, (f a).id = a.id)
    (hok : ∀ a ∈ getB s.annotationsByVersion s.versionId,
      annOk a = true → annOk (f a) = true)
    (hinv : StoreInv s) (k : String) :
    (∀ a ∈ getB (setB s.annotationsByVersion s.versionId
        ((getB s.annotationsByVersion s.versionId).map f)) k, annOk a = true) ∧
    ((getB (setB s.annotationsByVersion s.versionId
        ((getB s.annotationsByVersion s.versionId).map f)) k).map Annotation.id).Nodup := by
  by_cases hk : k = s.versionId
  · subst hk
    rw [getB_setB_same]
    constructor
    · intro a ha
      rcases List.mem_map.mp ha with ⟨b, hb, rfl⟩
      exact hok b hb (hinv.1 s.versionId b hb)
    · rw [map_ids_of_preserving _ f hid]
      exact hinv.2 s.versionId
  · rw [getB_setB_other _ _ _ _ hk]
    exact ⟨hinv.1 k, hinv.2 k⟩

theorem storeInv_create (s : ReviewState) (draft : SelectionDraft)
    (category : AnnotationCategory) (severity : Severity) (assigneeId : Option String)
    (comment : String) (docId newId nowT evId : String)
    (hfresh : newId ∉ (getB s.annotationsByVersion s.versionId).map Annotation.id)
    (hinv : StoreInv s) :
    StoreInv ( createAnnotation draft category severity assigneeId comment docId
      newId nowT evId s) := by
  constructor
  · intro k a ha
    simp only [ createAnnotation] at ha
    by_cases hk : k = s.versionId
    · subst hk
      rw [getB_setB_same] at ha
      rcases List.mem_cons.mp ha with rfl | hb
      · rfl
      · exact hinv.1 _ a hb
    · rw [getB_setB_other _ _ _ _ hk] at ha
      exact hinv.1 k a ha
  · intro k
    simp only [ createAnnotation]
    by_cases hk : k = s.versionId
    · subst hk
      rw [getB_setB_same]
      simp only [List.map_cons, List.nodup_cons]
      exact ⟨hfresh, hinv.2 _⟩
    · rw [getB_setB_other _ _ _ _ hk]
      exact hinv.2 k

theorem storeInv_toggle (s : ReviewState) (id nowT evId : String)
    (hinv : StoreInv s) : StoreInv (toggleResolved id nowT evId s) := by
  rcases hfind : (getB s.annotationsByVersion s.versionId).find? (fun a => a.id == id)
    with _ | ann
  · simpa [toggleResolved, hfind] using hinv
  · by_cases hnr : ann.status = .NeedsRemap
    · simpa [toggleResolved, hfind, hnr] using hinv
    · have hmap := storeInv_setB_map s
        (fun a => if a.id == id then
          { a with
            status := if ann.status = .Resolved then AnnotationStatus.Open else .Resolved
            updatedAt := nowT }
        else a)
        (fun a => by by_cases h : (a.id == id) = true <;> simp [h])
        (fun b hb hokb => by
          by_cases hbid : (b.id == id) = true
          · have hbeq : b = ann :=
              eq_of_mem_of_find?_of_nodup _ id (hinv.2 s.versionId) ann hfind b hb
                (by simpa using hbid)
            subst hbeq
            have hanchor : b.anchor.isUnanchored = false := by
              simp only [annOk] at hokb
              have hst : (b.status == AnnotationStatus.NeedsRemap) = false := by
                cases hc : b.status <;> first | rfl | exact absurd hc hnr
              rw [hst] at hokb
              cases hic : b.anchor.isUnanchored <;> simp_all
            simp only [hbid, if_true, annOk]
            by_cases hc : b.status = AnnotationStatus.Resolved <;> simp [hc, hanchor]
          · simpa [annOk, hbid] using hokb)
        hinv
      constructor
      · intro k a ha
        exact (hmap k).1 a (by simpa [toggleResolved, hfind, hnr] using ha)
      · intro k
        have := (hmap k).2
        simpa [toggleResolved, hfind, hnr] using this

theorem storeInv_assign (s : ReviewState) (id : String) (toUserId : Option String)
    (nowT evId : String) (hinv : StoreInv s) :
    StoreInv (changeAssignee id toUserId nowT evId s) := by
  rcases hfind : (getB s.annotationsByVersion s.versionId).find? (fun a => a.id == id)
    with _ | ann
  · simpa [changeAssignee, hfind] using hinv
  · have hmap := storeInv_setB_map s
      (fun a => if a.id == id then { a with assigneeId := toUserId, updatedAt := nowT }
        else a)
      (fun a => by by_cases h : (a.id == id) = true <;> simp [h])
      (fun b hb hokb => by
        by_cases hbid : (b.id == id) = true <;> simpa [annOk, hbid] using hokb)
      hinv
    constructor
    · intro k a ha
      exact (hmap k).1 a (by simpa [changeAssignee, hfind] using ha)
    · intro k
      have := (hmap k).2
      simpa [changeAssignee, hfind] using this

theorem storeInv_remap (s : ReviewState) (id : String) (draft : SelectionDraft)
    (nowT evId : String) (hinv : StoreInv s) :
    StoreInv (remapIssue id draft nowT evId s) := by
  rcases hfind : (getB s.annotationsByVersion s.versionId).find? (fun a => a.id == id)
    with _ | ann
  · simpa [remapIssue, hfind] using hinv
  · have hmap := storeInv_setB_map s
      (fun a => if a.id == id then
        { a with
          status := .Open
          quote := draft.quote
          anchor := .TextRange draft.sectionId draft.startLocal draft.endLocal
          updatedAt := nowT }
      else a)
      (fun a => by by_cases h : (a.id == id) = true <;> simp [h])
      (fun b hb hokb => by
        by_cases hbid : (b.id == id) = true
        · simp [annOk, hbid, AnnotationAnchor.isUnanchored]
        · simpa [annOk, hbid] using hokb)
      hinv
    constructor
    · intro k a ha
      exact (hmap k).1 a (by simpa [remapIssue, hfind] using ha)
    · intro k
      have := (hmap k).2
      simpa [remapIssue, hfind] using this

theorem carryList_id_mem (versionId nowT : String) (fresh : Nat → String) :
    ∀ (i : Nat) (l : List Annotation) (y : String),
      y ∈ (carryList versionId nowT fresh i l).map Annotation.id →
      ∃ j, i ≤ j ∧ y = fresh j := by
  intro i l
  induction l generalizing i with
  | nil => intro y hy; simp [carryList] at hy
  | cons a rest ih =>
    intro y hy
    simp only [carryList, List.map_cons, List.mem_cons] at hy
    rcases hy with rfl | hy
    · exact ⟨i, Nat.le_refl i, rfl⟩
    · rcases ih (i + 1) y hy with ⟨j, hj, rfl⟩
      exact ⟨j, by omega, rfl⟩

theorem carryList_ids_nodup (versionId nowT : String) (fresh : Nat → String)
    (hinj : ∀ i j, fresh i = fresh j → i = j) :
    ∀ (i : Nat) (l : List Annotation),
      ((carryList versionId nowT fresh i l).map Annotation.id).Nodup := by
  intro i l
  induction l generalizing i with
  | nil => simp [carryList]
  | cons a rest ih =>
    simp only [carryList, List.map_cons, List.nodup_cons]
    refine ⟨?_, ih (i + 1)⟩
    intro hmem
    rcases carryList_id_mem versionId nowT fresh (i + 1) rest _ hmem with ⟨j, hj, heq⟩
    have : i = j := hinj i j heq
    omega

theorem storeInv_carry (s : ReviewState) (previousVersionId : Option String)
    (nowT : String) (fresh : Nat → String) (evId : String)
    (hinj : ∀ i j, fresh i = fresh j → i = j)
    (hfresh : ∀ i, fresh i ∉ (getB s.annotationsByVersion s.versionId).map Annotation.id)
    (hinv : StoreInv s) :
    StoreInv (carryOverFromPrevious previousVersionId nowT fresh evId s) := by
  rcases previousVersionId with _ | fromId
  · exact hinv
  · by_cases h0 : ((getB s.annotationsByVersion fromId).filter
        (fun a => !(a.status == .Resolved))).length = 0
    · simpa [carryOverFromPrevious, h0] using hinv
    · have habv : (carryOverFromPrevious (some fromId) nowT fresh evId
          s).annotationsByVersion =
        setB s.annotationsByVersion s.versionId
          (carryList s.versionId nowT fresh 0
              ((getB s.annotationsByVersion fromId).filter
                (fun a => !(a.status == .Resolved))) ++
            getB s.annotationsByVersion s.versionId) := by
        simp [carryOverFromPrevious, h0]
      constructor
      · intro k a ha
        rw [habv] at ha
        by_cases hk : k = s.versionId
        · subst hk
          rw [getB_setB_same] at ha
          rcases List.mem_append.mp ha with hc | hold
          · have := carryList_mem _ _ _ 0 _ a hc
            simp [annOk, this.1, this.2.1, AnnotationAnchor.isUnanchored]
          · exact hinv.1 _ a hold
        · rw [getB_setB_other _ _ _ _ hk] at ha
          exact hinv.1 k a ha
      · intro k
        rw [habv]
        by_cases hk : k = s.versionId
        · subst hk
          rw [getB_setB_same, List.map_append]
          refine List.Nodup.append (carryList_ids_nodup _ _ _ hinj 0 _) (hinv.2 _) ?_
          intro y hy hmem
          rcases carryList_id_mem _ _ _ 0 _ y hy with ⟨j, _, rfl⟩
          exact hfresh j hmem
        · rw [getB_setB_other _ _ _ _ hk]
          exact hinv.2 k

theorem storeInv_reachable (s : ReviewState) (h : Reachable s) : StoreInv s := by
  induction h with
  | init vid nowT evId =>
    constructor
    · intro k a ha
      simp [initialState, getB] at ha
    · intro k
      simp [initialState, getB]
  | create draft category severity assigneeId comment docId newId nowT evId _ hfresh ih =>
    exact storeInv_create _ draft category severity assigneeId comment docId newId
      nowT evId hfresh ih
  | toggle id nowT evId _ ih => exact storeInv_toggle _ id nowT evId ih
  | assign id toUserId nowT evId _ ih => exact storeInv_assign _ id toUserId nowT evId ih
  | remap id draft nowT evId _ ih => exact storeInv_remap _ id draft nowT evId ih
  | carry previousVersionId nowT fresh evId _ hinj hfresh ih =>
    exact storeInv_carry _ previousVersionId nowT fresh evId hinj hfresh ih
  | switch next nowT evId _ ih => exact ih

/-- A Boolean `annOk` unfolds to the if-and-only-if form of the invariant. -/
theorem annOk_iff (a : Annotation) (h : annOk a = true) :
    a.status = .NeedsRemap ↔ a.anchor.isUnanchored = true := by
  simp only [annOk] at h
  have h2 : (a.status == AnnotationStatus.NeedsRemap) = a.anchor.isUnanchored := by
    simpa using h
  constructor
  · intro hs
    rw [← h2, hs]
    simp
  · intro hu
    have hbe : (a.status == AnnotationStatus.NeedsRemap) = true := h2.trans hu
    simpa using hbe

/-- C4: starting from the empty store, after any sequence of the store
mutations (`createAnnotation`, `toggleResolved`, `changeAssignee`,
`remapIssue`, `carryOverFromPrevious`, and version switches), every annotation
in every version bucket satisfies `status = NeedsRemap` if and only if its
anchor is `Unanchored`: create and remap always write `Open` with a
`TextRange` anchor, carry-over always writes `NeedsRemap` with an `Unanchored`
anchor, and no other mutation touches the anchor or moves the status to or
from `NeedsRemap`. -/
theorem C4_status_anchor_invariant (s : ReviewState) (h : Reachable s) :
    ∀ k : String, ∀ a ∈ getB s.annotationsByVersion k,
      (a.status = .NeedsRemap ↔ a.anchor.isUnanchored = true) := by
  intro k a ha
  exact annOk_iff a ((storeInv_reachable s h).1 k a ha)

/-- C4 witness: in the state reached by creating one annotation after
initialization, the created annotation satisfies the invariant. -/
theorem C4_witness :
    ({ id := "a1", docId := "d1", versionId := "v1", quote := "quo",
       category := .Compliance, severity := .Low, status := .Open,
       assigneeId := none, comment := "c",
       anchor := .TextRange "s1" 2 5, createdAt := "t1",
       updatedAt := "t1" } : Annotation).status = .NeedsRemap ↔
      ({ id := "a1", docId := "d1", versionId := "v1", quote := "quo",
         category := .Compliance, severity := .Low, status := .Open,
         assigneeId := none, comment := "c",
         anchor := .TextRange "s1" 2 5, createdAt := "t1",
         updatedAt := "t1" } : Annotation).anchor.isUnanchored = true :=
  C4_status_anchor_invariant
    ( createAnnotation ⟨"s1", 0, 2, 5, "quo"⟩ .Compliance .Low none "c" "d1" "a1" "t1"
      "e1" (initialState "v1" "t0" "e0"))
    (Reachable.create ⟨"s1", 0, 2, 5, "quo"⟩ .Compliance .Low none "c" "d1" "a1" "t1"
      "e1" (Reachable.init "v1" "t0" "e0") (by decide))
    "v1" _ (by decide)

/-- C10 witness: the clones carried from `v1` (whose own annotations carry
timestamps `"t0"`) into `v2` at time `"t9"` all have `createdAt` and
`updatedAt` equal to `"t9"`. -/
theorem C10_witness :
    ((getB (carryOverFromPrevious (some "v1") "t9" (fun i => "c" ++ toString i) "ev5"
          twoVersionState).annotationsByVersion "v2").take 2).all
        (fun a => a.createdAt == "t9" && a.updatedAt == "t9") = true := by
  have h := C10_carried_timestamps twoVersionState "t9" (fun i => "c" ++ toString i)
    "ev5" "v1" (by decide)
  rw [show twoVersionState.versionId = "v2" from rfl] at h
  have h2 : ((getB twoVersionState.annotationsByVersion "v1").filter
      (fun a => !(a.status == .Resolved))).length = 2 := by decide
  rw [h2] at h
  rw [List.all_eq_true]
  intro a ha
  have := h a ha
  simp [this.1, this.2]

end DocReview
